import Mathlib

/-!
Verification of the nearest-color library (src/lib/index.ts).

Modelling conventions:
* JavaScript numbers that hold colour channels, distances-squared and result
  counts are integer-valued in every reachable state of the program; they are
  modelled as `ℤ`.
* `Math.sqrt` / the floating-point Euclidean distance is modelled by exact real
  arithmetic: a `ColorMatch` stores the exact squared distance (an integer) and
  the observed distance is `Real.sqrt` of it, as the spec prescribes
  ("Euclidean distance ... using real (floating-point) arithmetic").
* Strings are modelled by their character lists (`String` wraps `List Char`).
* `Array.prototype.sort` with the `compare` comparator is required by the
  ECMAScript spec to be a stable sort; the output of a stable sort is uniquely
  determined by the comparator (a consistent total preorder on the distance
  field) and the input order, so it is modelled by `List.insertionSort`, which
  is a stable sort, and we prove sortedness / stability / permutation facts
  about it rather than assuming them.
* The development has two layers.  The runtime layer (`parseColorStrJS`,
  `parseColorToRGBJS`, `nearestColorJS`, `createColorSpecJS`, `mapColorsObjJS`)
  is faithful to JavaScript dynamics: the `in` operator walks the prototype
  chain of `STANDARD_COLORS` (so sources like `"toString"` make the normalizer
  throw a `TypeError` and `"__proto__"` makes it return `Object.prototype`),
  objects may lack their r/g/b fields, and a missing field gives a `NaN`
  distance.  The typed layer (`parseColorStr`, `parseColorToRGB`,
  `nearestColor`, `mapColors`) observes exactly the triple-producing runs of
  the runtime layer over the TypeScript-typed inputs; `CustomColorObject`'s
  index signature `[key: string]: string` makes every record field access a
  string, so records are modelled as total string-valued field maps.
-/

namespace NearestColorTS

/-- The `RGB` interface: three integer channel values (not clamped, not
validated anywhere in the library). -/
structure RGB where
  r : ℤ
  g : ℤ
  b : ℤ
deriving DecidableEq, Repr

/-- The `ColorSpec` interface: optional display name, original source string,
canonical RGB triple.  `name` is `none` exactly when the JS object has no
(truthy) `name` property. -/
structure ColorSpec where
  name : Option String
  source : String
  rgb : RGB
deriving DecidableEq, Repr

/-- The `ColorMatch` interface.  The JS object stores the floating-point
distance; we store the exact squared distance `distSq` and observe the
distance as `Real.sqrt distSq` (see `ColorMatch.distance`). -/
structure ColorMatch where
  name : String
  value : String
  rgb : RGB
  distSq : ℤ
deriving DecidableEq, Repr

/-- A colour input: TypeScript `RGB | string`.  `typeof source === "object"`
distinguishes the two at runtime. -/
inductive ColorInput where
  | str : String → ColorInput
  | rgb : RGB → ColorInput
deriving DecidableEq, Repr

/-- The `STANDARD_COLORS` table, in source order (string keys of a JS object
enumerate in insertion order). -/
def STANDARD_COLORS : List (String × String) :=
  [("aqua", "#0ff"), ("black", "#000"), ("blue", "#00f"), ("fuchsia", "#f0f"),
   ("gray", "#808080"), ("green", "#008000"), ("lime", "#0f0"),
   ("maroon", "#800000"), ("navy", "#000080"), ("olive", "#808000"),
   ("orange", "#ffa500"), ("purple", "#800080"), ("red", "#f00"),
   ("silver", "#c0c0c0"), ("teal", "#008080"), ("white", "#fff"),
   ("yellow", "#ff0")]

/-- `Math.round` (round half toward +∞).  For every reachable argument
(`v * 255 / 100` with `0 ≤ v ≤ 999`) the double computation is exact enough
that it agrees with the exact rational rounding modelled here. -/
def jsRound (q : ℚ) : ℤ := ⌊q + 1 / 2⌋

/-- The character the JS runtime uses for digit `n` in `Number.toString(base)`
(`0`-`9` then lowercase `a`-`z`). -/
def digitChar (n : ℕ) : Char :=
  if n < 10 then Char.ofNat (48 + n) else Char.ofNat (87 + n)

/-- Numeric value of a (decimal or hexadecimal) digit character, as used by
`parseInt`.  Junk value 0 outside the digit ranges; every use site is guarded
by a digit test. -/
def hexVal (c : Char) : ℕ :=
  if '0' ≤ c ∧ c ≤ '9' then c.toNat - 48
  else if 'a' ≤ c ∧ c ≤ 'f' then c.toNat - 87
  else if 'A' ≤ c ∧ c ≤ 'F' then c.toNat - 55
  else 0

/-- `[0-9a-fA-F]` (the hex regex carries the `i` flag). -/
def isHexDigit (c : Char) : Bool :=
  c.isDigit || (decide ('a' ≤ c) && decide (c ≤ 'f')) || (decide ('A' ≤ c) && decide (c ≤ 'F'))

/-- Big-endian value of a digit string in base `b` (the value `parseInt`
computes on a pure digit string). -/
def digitsVal (b : ℕ) (cs : List Char) : ℕ :=
  cs.foldl (fun a c => b * a + hexVal c) 0

/-- Fuel-driven base conversion; `fuel ≥ n` always suffices (the argument at
least halves at each step). -/
def natToDigitsGo (b : ℕ) : ℕ → ℕ → List Char
  | 0, n => [digitChar n]
  | fuel + 1, n =>
    if 2 ≤ b ∧ b ≤ n then natToDigitsGo b fuel (n / b) ++ [digitChar (n % b)]
    else [digitChar n]

/-- `n.toString(b)` for a natural number `n` and base `2 ≤ b ≤ 16`:
the big-endian base-`b` digit string of `n`. -/
def natToDigits (b n : ℕ) : List Char := natToDigitsGo b n n

/-- `n.toString(16)` for an integer-valued JS number. -/
def jsToString16 (n : ℤ) : List Char :=
  if n < 0 then '-' :: natToDigits 16 n.natAbs else natToDigits 16 n.toNat

/-- The whitespace class `\s` of JS regexes / `parseInt`, restricted to the
characters that can occur in the claims (ASCII whitespace and NBSP; the
remaining Unicode space characters are never mentioned by spec or tests). -/
def isJsWhitespace (c : Char) : Bool :=
  c == ' ' || c == '\t' || c == '\n' || c == '\r' || c == '\x0b' || c == '\x0c' || c == ' '

/-- Value of the longest digit prefix; `none` models `NaN` (no digits). -/
def digitPrefixVal (cs : List Char) : Option ℕ :=
  let ds := cs.takeWhile Char.isDigit
  if ds = [] then none else some (digitsVal 10 ds)

/-- `parseInt(s, 10)`: skip leading whitespace, optional sign, value of the
longest digit prefix; `none` models `NaN`. -/
def jsParseInt10 (cs : List Char) : Option ℤ :=
  match cs.dropWhile isJsWhitespace with
  | [] => none
  | c :: rest =>
    if c = '-' then (digitPrefixVal rest).map (fun v => -(v : ℤ))
    else if c = '+' then (digitPrefixVal rest).map (fun v => (v : ℤ))
    else (digitPrefixVal (c :: rest)).map (fun v => (v : ℤ))

/-- `parseComponentValue` from the source.  Its argument is always a regex
capture matching `\d{1,3}%?`; on that domain `parseInt(text, 10)` is the value
of the digit prefix and `Number(text)` the value of the (all-digit) string,
which is what `digitsVal 10` computes.  The percent branch is
`Math.round(v * 255 / 100)`; for a natural `v` that rounding equals the
integer expression `(51 * v + 10) / 20` used here (proved as
`round_formula_eq_jsRound` below), which keeps the definition executable. -/
def parseComponentValue (text : String) : ℤ :=
  if text.data.getLast? = some '%' then
    ((51 * digitsVal 10 (text.data.takeWhile Char.isDigit) + 10) / 20 : ℕ)
  else
    (digitsVal 10 text.data : ℤ)

/-- `leadingZero` from the source (on the underlying character list). -/
def leadingZero (value : List Char) : List Char :=
  if value.length = 1 then '0' :: value else value

/-- `rgbToHex` from the source: `"#" + leadingZero(r.toString(16)) + ...`. -/
def rgbToHex (rgb : RGB) : String :=
  ⟨'#' :: (leadingZero (jsToString16 rgb.r) ++
    leadingZero (jsToString16 rgb.g) ++ leadingZero (jsToString16 rgb.b))⟩

/-- `16 * hexVal x + hexVal y`: `parseInt` of a two-hex-digit string, as
produced by the hex branch of `parseColorToRGB`. -/
def hexPairVal (x y : Char) : ℤ := (16 * hexVal x + hexVal y : ℕ)

/-- The hex branch of `parseColorToRGB`: the regex
`^#((?:[0-9a-f]{3}){1,2})$/i` (a `#` followed by exactly 3 or 6 hex digits,
case-insensitive), 3-digit forms expanded by doubling each digit, then each
2-digit group `parseInt`-ed in base 16. -/
def parseHex (s : String) : Option RGB :=
  match s.data with
  | [] => none
  | c :: rest =>
    if c = '#' then
      if rest.all isHexDigit then
        match rest with
        | [h1, h2, h3] => some ⟨hexPairVal h1 h1, hexPairVal h2 h2, hexPairVal h3 h3⟩
        | [h1, h2, h3, h4, h5, h6] => some ⟨hexPairVal h1 h2, hexPairVal h3 h4, hexPairVal h5 h6⟩
        | _ => none
      else none
    else none

/-- One component capture `(\d{1,3}%?)` of the functional-rgb regex, returning
the captured characters and the rest of the input.  The regex's greedy
matching with backtracking is deterministic here: a digit run longer than 3
can never be completed (the character after any shorter prefix is a digit),
and a present `%` is always consumed (backtracking over `%?` cannot succeed,
since the context characters `,`/whitespace/`)` differ from `%`). -/
def parseComp (cs : List Char) : Option (List Char × List Char) :=
  let ds := cs.takeWhile Char.isDigit
  let rest := cs.drop ds.length
  if 1 ≤ ds.length ∧ ds.length ≤ 3 then
    match rest with
    | [] => some (ds, [])
    | c :: tail => if c = '%' then some (ds ++ ['%'], tail) else some (ds, rest)
  else none

/-- Expect the literal character `c` next. -/
def expectChar (c : Char) : List Char → Option (List Char)
  | [] => none
  | x :: rest => if x = c then some rest else none

/-- The part of the functional-rgb regex after `rgb(`:
`\s*(\d{1,3}%?),\s*(\d{1,3}%?),\s*(\d{1,3}%?)\s*\)$`.
Note there is no whitespace between a capture and its following comma. -/
def parseRgbBody (cs : List Char) : Option (List Char × List Char × List Char) :=
  match parseComp (cs.dropWhile isJsWhitespace) with
  | none => none
  | some (c1, r1) =>
    match expectChar ',' r1 with
    | none => none
    | some r2 =>
      match parseComp (r2.dropWhile isJsWhitespace) with
      | none => none
      | some (c2, r3) =>
        match expectChar ',' r3 with
        | none => none
        | some r4 =>
          match parseComp (r4.dropWhile isJsWhitespace) with
          | none => none
          | some (c3, r5) =>
            if r5.dropWhile isJsWhitespace = [')'] then some (c1, c2, c3) else none

/-- The shape of one component capture: a digit string, optionally followed by
a percent sign. -/
def compChars (ds : List Char) (pct : Bool) : List Char :=
  if pct then ds ++ ['%'] else ds

/-- The functional-rgb branch of `parseColorToRGB`:
`^rgb\(\s*(\d{1,3}%?),\s*(\d{1,3}%?),\s*(\d{1,3}%?)\s*\)$/i` followed by
`parseComponentValue` on each capture. -/
def parseRgbFunc (s : String) : Option RGB :=
  match s.data with
  | a :: b :: c :: d :: rest =>
    if (a = 'r' ∨ a = 'R') ∧ (b = 'g' ∨ b = 'G') ∧ (c = 'b' ∨ c = 'B') ∧ d = '(' then
      match parseRgbBody rest with
      | some (c1, c2, c3) =>
        some ⟨parseComponentValue ⟨c1⟩, parseComponentValue ⟨c2⟩, parseComponentValue ⟨c3⟩⟩
      | none => none
    else none
  | _ => none

/-- Rules 3-5 of `parseColorToRGB` on a string: try the hex regex, then the
functional-rgb regex, else fail. -/
def parseColorNoName (s : String) : Option RGB :=
  match parseHex s with
  | some rgb => some rgb
  | none => parseRgbFunc s

/-- The string property keys `STANDARD_COLORS` inherits from
`Object.prototype` (ES2023 including the Annex B accessor methods, as in every
major engine): the source tests `source in STANDARD_COLORS`, and the JS `in`
operator walks the prototype chain, so it is also true for these twelve
names. -/
def OBJECT_PROTOTYPE_KEYS : List String :=
  ["constructor", "hasOwnProperty", "isPrototypeOf", "propertyIsEnumerable",
   "toLocaleString", "toString", "valueOf", "__defineGetter__", "__defineSetter__",
   "__lookupGetter__", "__lookupSetter__", "__proto__"]

/-- A runtime colour object, as seen through the only reads the library ever
performs on it: its `r`, `g`, `b` fields, each either absent (`undefined`,
modelled `none`) or an integer-valued number.  A full RGB triple is the case
where all three fields are present. -/
structure RGBObject where
  r : Option ℤ
  g : Option ℤ
  b : Option ℤ
deriving DecidableEq, Repr

/-- `Object.prototype`, as seen through the r/g/b reads the library performs:
it has none of those fields. -/
def objectPrototype : RGBObject := ⟨none, none, none⟩

/-- The possible outcomes of `parseColorToRGB`: an object (a parsed or
passed-through colour object, possibly lacking fields), the `null` failure
value, or a thrown `TypeError`. -/
inductive ParseResult where
  | obj : RGBObject → ParseResult
  | nullResult : ParseResult
  | typeError : ParseResult
deriving DecidableEq, Repr

/-- `parseColorToRGB` on a string, faithful to the `in` operator.
`source in STANDARD_COLORS` is true for the 17 own keys and for the
`Object.prototype` keys.  For an own key the looked-up value is a hex string
and the recursive call falls through to the hex rule (no table value is
itself an own key or a prototype key: `std_values_not_keys` and
`std_values_not_proto_keys` below).  For the inherited key `"__proto__"` the
lookup yields `Object.prototype`, which the recursive call returns unchanged
(`typeof` is `"object"`).  For every other inherited key the lookup yields a
built-in function, and the recursive call throws a `TypeError` when it
reaches `source.match` (`typeof` a function is neither `"object"` nor
`"string"`, and a function converted to a property key is not a table
member).  Otherwise the hex and functional-rgb rules are tried, then the
`null` failure value. -/
def parseColorStrJS (s : String) : ParseResult :=
  match STANDARD_COLORS.lookup s with
  | some hx =>
    match parseColorNoName hx with
    | some q => .obj ⟨some q.r, some q.g, some q.b⟩
    | none => .nullResult
  | none =>
    if s ∈ OBJECT_PROTOTYPE_KEYS then
      if s = "__proto__" then .obj objectPrototype else .typeError
    else
      match parseColorNoName s with
      | some q => .obj ⟨some q.r, some q.g, some q.b⟩
      | none => .nullResult

/-- The triple-producing runs of the string normalizer: `some t` exactly when
`parseColorStrJS` returns an object carrying all three channel fields (a
genuine RGB triple).  The prototype-chain outcomes (`Object.prototype`
passthrough, `TypeError`) and the `null` failure all project to `none`. -/
def parseColorStr (s : String) : Option RGB :=
  match parseColorStrJS s with
  | .obj ⟨some r, some g, some b⟩ => some ⟨r, g, b⟩
  | _ => none

/-- `parseColorToRGB` restricted to the TypeScript-typed inputs and observed
through its triple-producing runs: object inputs (full `RGB` records under
the TS types) are returned unchanged, string inputs go through
`parseColorStr`.  The full runtime behaviour, with arbitrary objects and the
prototype-chain outcomes, is `parseColorToRGBJS` below. -/
def parseColorToRGB : ColorInput → Option RGB
  | .rgb o => some o
  | .str s => parseColorStr s

/-- `createColorSpec` from the source.  `if (name)` guards the optional name
(the empty string is falsy); a string input that fails to parse yields
`null`. -/
def createColorSpec (input : ColorInput) (name : Option String) : Option ColorSpec :=
  let nm : Option String :=
    match name with
    | some n => if n = "" then none else some n
    | none => none
  match input with
  | .str s =>
    match parseColorToRGB (.str s) with
    | none => none
    | some rgb => some ⟨nm, s, rgb⟩
  | .rgb o => some ⟨nm, rgbToHex o, o⟩

/-- A record of the record-array palette form.  Its TypeScript type
`{ [key: string]: string }` makes every field access a string, so a record is
a total string-valued field map (an absent name is the falsy empty string,
which `createColorSpec` treats exactly like JS treats `undefined`). -/
def CustomColorObject : Type := String → String

/-- Input to `mapColors`: a name → hex mapping (in key-enumeration order) or
an array of records. -/
inductive PaletteInput where
  | mapping : List (String × String) → PaletteInput
  | records : List CustomColorObject → PaletteInput

/-- `mapColors` from the source: fold over the input pushing each successfully
created `ColorSpec`, silently skipping `null`s. -/
def mapColors (colors : PaletteInput) (nameKey : String := "name") (hexKey : String := "value") :
    List ColorSpec :=
  match colors with
  | .records cs =>
    cs.foldl (fun result color =>
      match createColorSpec (.str (color hexKey)) (some (color nameKey)) with
      | some c => result ++ [c]
      | none => result) []
  | .mapping ps =>
    ps.foldl (fun result p =>
      match createColorSpec (.str p.2) (some p.1) with
      | some c => result ++ [c]
      | none => result) []

/-- One `ColorMatch` of the search loop: display name falls back to the source
string when the `name` property is falsy, and the distance to the query `q` is
recorded (as its exact square). -/
def toColorMatch (q : RGB) (color : ColorSpec) : ColorMatch where
  name :=
    match color.name with
    | some n => if n = "" then color.source else n
    | none => color.source
  value := color.source
  rgb := color.rgb
  distSq := (q.r - color.rgb.r) ^ 2 + (q.g - color.rgb.g) ^ 2 + (q.b - color.rgb.b) ^ 2

/-- The distance field of a `ColorMatch` as the JS object stores it:
`Math.sqrt` of the sum of squared channel differences. -/
noncomputable def ColorMatch.distance (m : ColorMatch) : ℝ := Real.sqrt m.distSq

/-- The order the `compare` comparator sorts by: ascending distance.
Comparing the (nonnegative) squared distances is equivalent to comparing the
distances themselves since `Real.sqrt` is monotone. -/
def colorMatchLE (a b : ColorMatch) : Prop := a.distSq ≤ b.distSq

instance : DecidableRel colorMatchLE := fun a b => inferInstanceAs (Decidable (a.distSq ≤ b.distSq))

instance : IsTotal ColorMatch colorMatchLE := ⟨fun a b => Int.le_total a.distSq b.distSq⟩

instance : IsTrans ColorMatch colorMatchLE := ⟨fun _ _ _ => Int.le_trans⟩

/-- The match array as built by the `for` loop, in palette order. -/
def buildMatches (q : RGB) (colors : List ColorSpec) : List ColorMatch :=
  colors.map (toColorMatch q)

/-- `colorMatchArray.sort(compare)`: a stable sort by ascending distance. -/
def sortedMatches (q : RGB) (colors : List ColorSpec) : List ColorMatch :=
  (buildMatches q colors).insertionSort colorMatchLE

/-- The two result shapes of `nearestColor`: `colorMatchArray[0]` (possibly
`undefined`) when `amount ≤ 1`, else `colorMatchArray.slice(0, amount)`. -/
inductive SearchResult where
  | one : Option ColorMatch → SearchResult
  | many : List ColorMatch → SearchResult
deriving DecidableEq, Repr

/-- `nearestColor` from the source; the `throw` on an unparseable needle is
the `Except.error` case. -/
def nearestColor (needle : ColorInput) (colors : List ColorSpec) (amount : ℤ := 1) :
    Except String SearchResult :=
  match parseColorToRGB needle with
  | none => .error "Provided colour does not compute!"
  | some q =>
    let arr := sortedMatches q colors
    if amount ≤ 1 then .ok (.one arr.head?) else .ok (.many (arr.take amount.toNat))

/-- `nearestFrom` from the source: bind a palette once, return the matcher. -/
def nearestFrom (availableColors : PaletteInput) (nameKey : String := "name")
    (hexKey : String := "value") : String → ℤ → Except String SearchResult :=
  let colors := mapColors availableColors nameKey hexKey
  fun hex amount => nearestColor (.str hex) colors amount

/-- A runtime colour input: a string, or an arbitrary object (`typeof`
distinguishes the two).  Unlike the TS-typed `ColorInput`, the object case
may lack any of its r/g/b fields. -/
inductive JSColorInput where
  | str : String → JSColorInput
  | obj : RGBObject → JSColorInput
deriving DecidableEq, Repr

/-- `parseColorToRGB` from the source over the full runtime input domain: an
object input — whatever fields it has — is returned unchanged without being
inspected; a string input goes through the name / hex / rgb rules of
`parseColorStrJS`. -/
def parseColorToRGBJS : JSColorInput → ParseResult
  | .obj o => .obj o
  | .str s => parseColorStrJS s

/-- A match of the search over the runtime domain.  `distSq` is `none` when
the needle lacks one of its r/g/b fields: `undefined` poisons the squared sum
with `NaN`, so the stored float distance is `NaN`. -/
structure ColorMatchJS where
  name : String
  value : String
  rgb : RGB
  distSq : Option ℤ
deriving DecidableEq, Repr

/-- The search-loop match for a runtime needle `q`: the distance is the exact
squared Euclidean distance when `q` has all three fields, and `NaN` (`none`)
otherwise. -/
def toColorMatchJS (q : RGBObject) (color : ColorSpec) : ColorMatchJS where
  name :=
    match color.name with
    | some n => if n = "" then color.source else n
    | none => color.source
  value := color.source
  rgb := color.rgb
  distSq :=
    match q.r, q.g, q.b with
    | some r, some g, some b =>
      some ((r - color.rgb.r) ^ 2 + (g - color.rgb.g) ^ 2 + (b - color.rgb.b) ^ 2)
    | _, _, _ => none

/-- The order of the `compare` comparator on runtime matches: `NaN` distances
compare neither smaller nor larger, so `compare` returns 0 and the stable
sort treats such matches as equal.  Within one search either every match has
a real distance or (needle field missing) every match has `NaN`, so the
comparator is consistent on every list the program sorts. -/
def colorMatchLEJS (a b : ColorMatchJS) : Prop :=
  match a.distSq, b.distSq with
  | some x, some y => x ≤ y
  | _, _ => True

instance : DecidableRel colorMatchLEJS := fun a b => by
  rw [colorMatchLEJS]
  cases a.distSq <;> cases b.distSq <;> infer_instance

/-- The sorted match array of the runtime search. -/
def sortedMatchesJS (q : RGBObject) (colors : List ColorSpec) : List ColorMatchJS :=
  (colors.map (toColorMatchJS q)).insertionSort colorMatchLEJS

/-- The two result shapes of the runtime search. -/
inductive SearchResultJS where
  | one : Option ColorMatchJS → SearchResultJS
  | many : List ColorMatchJS → SearchResultJS
deriving DecidableEq, Repr

/-- How a `nearestColor` call can end: a returned result, the thrown
`Error` with message `"Provided colour does not compute!"` (the invalid-colour
condition), or a `TypeError` propagating out of the normalizer. -/
inductive SearchOutcome where
  | ok : SearchResultJS → SearchOutcome
  | invalidColorError : SearchOutcome
  | typeError : SearchOutcome
deriving DecidableEq, Repr

/-- `nearestColor` from the source over the full runtime domain: the
invalid-colour throw happens exactly when the normalizer returns the `null`
failure value; a `TypeError` thrown inside the normalizer propagates; any
object outcome — full triple, partial object or `Object.prototype` — is fed
into the distance computation as-is. -/
def nearestColorJS (needle : JSColorInput) (colors : List ColorSpec) (amount : ℤ) :
    SearchOutcome :=
  match parseColorToRGBJS needle with
  | .typeError => .typeError
  | .nullResult => .invalidColorError
  | .obj q =>
    let arr := sortedMatchesJS q colors
    if amount ≤ 1 then .ok (.one arr.head?) else .ok (.many (arr.take amount.toNat))

/-- A palette entry as the runtime actually builds it: `createColorSpec` never
checks that the parsed colour is a genuine triple, only that it is not
`null`, so the stored `rgb` can be a field-less object. -/
structure ColorSpecJS where
  name : Option String
  source : String
  rgb : RGBObject
deriving DecidableEq, Repr

/-- `createColorSpec` on a string source, over the full runtime domain:
`.error ()` models the `TypeError` escaping the call, `.ok none` the `null`
return for an unparseable source, and `.ok (some spec)` a pushed entry —
including the degraded case where the parsed colour is `Object.prototype`. -/
def createColorSpecJS (s : String) (name : Option String) : Except Unit (Option ColorSpecJS) :=
  let nm : Option String :=
    match name with
    | some n => if n = "" then none else some n
    | none => none
  match parseColorStrJS s with
  | .typeError => .error ()
  | .nullResult => .ok none
  | .obj o => .ok (some ⟨nm, s, o⟩)

/-- The mapping form of `mapColors` over the full runtime domain: the fold
pushes each non-`null` spec and a thrown `TypeError` aborts the whole build
(the record-array form calls the same `createColorSpec` and behaves the same
way). -/
def mapColorsObjJS : List (String × String) → List ColorSpecJS →
    Except Unit (List ColorSpecJS)
  | [], acc => .ok acc
  | p :: ps, acc =>
    match createColorSpecJS p.2 (some p.1) with
    | .error e => .error e
    | .ok none => mapColorsObjJS ps acc
    | .ok (some c) => mapColorsObjJS ps (acc ++ [c])

/-- `str.replace(/^\s+|\s+$/gm, "")` from the source: on every reachable input
the non-whitespace core contains no line terminator, so the multiline flag is
inert and this is a plain two-sided trim. -/
def jsTrim (cs : List Char) : List Char :=
  ((cs.dropWhile isJsWhitespace).reverse.dropWhile isJsWhitespace).reverse

/-- `rgba.substring(rgba.indexOf("("))`: `indexOf` is `-1` when `(` is absent
and `substring` clamps `-1` to `0`, returning the whole string. -/
def dropBeforeLParen (cs : List Char) : List Char :=
  if '(' ∈ cs then cs.dropWhile (fun c => !(c == '(')) else cs

/-- `String.prototype.split(",")`. -/
def splitComma : List Char → List (List Char)
  | [] => [[]]
  | c :: rest =>
    if c = ',' then [] :: splitComma rest
    else
      match splitComma rest with
      | [] => [[c]]
      | p :: ps => (c :: p) :: ps

/-- `NaN.toString(16)` is the string `"NaN"`. -/
def numToString16 : Option ℤ → List Char
  | none => ['N', 'a', 'N']
  | some n => jsToString16 n

/-- `rgbaToHex` from the source.  Reading `parts[i]` of a too-short split and
calling a string method on the resulting `undefined` throws; that is the
`none` case.  The alpha value is parsed (that is the `parts[3]` access) and
then discarded, so only the existence of `parts[3]` is observable. -/
def rgbaToHex (rgba : String) : Option String := do
  let parts := splitComma (dropBeforeLParen rgba.data)
  let p0 ← parts.get? 0
  let p1 ← parts.get? 1
  let p2 ← parts.get? 2
  let _ ← parts.get? 3
  let r := jsParseInt10 (jsTrim (p0.drop 1))
  let g := jsParseInt10 (jsTrim p1)
  let b := jsParseInt10 (jsTrim p2)
  some ⟨'#' :: (numToString16 r ++ numToString16 g ++ numToString16 b)⟩

/-! ### Generic helper lemmas -/

/-- The integer form of `Math.round(v * 255 / 100)` used by
`parseComponentValue` agrees with exact rational round-half-up. -/
theorem round_formula_eq_jsRound (v : ℕ) :
    (((51 * v + 10) / 20 : ℕ) : ℤ) = jsRound ((v : ℚ) * 255 / 100) := by
  have h : (v : ℚ) * 255 / 100 + 1 / 2 = ((51 * v + 10 : ℕ) : ℚ) / ((20 : ℕ) : ℚ) := by
    push_cast
    ring
  rw [jsRound, h, Rat.floor_natCast_div_natCast]
  omega

/-- No value of the standard-colour table is itself a key of the table, so the
source's recursive `parseColorToRGB(STANDARD_COLORS[source])` call always falls
through to the hex rule, as `parseColorStr` does. -/
theorem std_values_not_keys : ∀ p ∈ STANDARD_COLORS, STANDARD_COLORS.lookup p.2 = none := by
  decide

theorem lookup_eq_none_of_forall {s : String} {l : List (String × String)}
    (h : ∀ p ∈ l, p.1.data ≠ s.data) : l.lookup s = none := by
  induction l with
  | nil => rfl
  | cons p l ih =>
    rw [List.lookup]
    have hne : (s == p.1) = false := by
      refine beq_eq_false_iff_ne.mpr fun hs => ?_
      exact h p (List.mem_cons_self _ _) (by rw [hs])
    rw [hne]
    exact ih fun q hq => h q (List.mem_cons_of_mem _ hq)

theorem lookup_std_none_of_head {c : Char} (rest : List Char)
    (h : ∀ p ∈ STANDARD_COLORS, p.1.data.head? ≠ some c) :
    STANDARD_COLORS.lookup ⟨c :: rest⟩ = none := by
  refine lookup_eq_none_of_forall fun p hp hdata => ?_
  exact h p hp (by rw [hdata]; rfl)

theorem lookup_std_none_of_second {c1 c2 : Char} (rest : List Char)
    (h : ∀ p ∈ STANDARD_COLORS, p.1.data.get? 1 ≠ some c2) :
    STANDARD_COLORS.lookup ⟨c1 :: c2 :: rest⟩ = none := by
  refine lookup_eq_none_of_forall fun p hp hdata => ?_
  refine h p hp ?_
  rw [hdata]
  rfl

theorem lookup_std_hash (rest : List Char) : STANDARD_COLORS.lookup ⟨'#' :: rest⟩ = none :=
  lookup_std_none_of_head rest (by decide)

theorem lookup_std_rgbl (rest : List Char) :
    STANDARD_COLORS.lookup ⟨'r' :: 'g' :: rest⟩ = none :=
  lookup_std_none_of_second rest (by decide)

/-- No value of the standard-colour table is a prototype key either, so the
source's recursive call on a looked-up hex value never hits the
prototype-chain branches. -/
theorem std_values_not_proto_keys :
    ∀ p ∈ STANDARD_COLORS, p.2 ∉ OBJECT_PROTOTYPE_KEYS := by
  decide

theorem not_proto_key_of_head {c : Char} (rest : List Char)
    (h : ∀ k ∈ OBJECT_PROTOTYPE_KEYS, k.data.head? ≠ some c) :
    (⟨c :: rest⟩ : String) ∉ OBJECT_PROTOTYPE_KEYS := fun hs => h _ hs rfl

theorem not_proto_key_of_second {c1 c2 : Char} (rest : List Char)
    (h : ∀ k ∈ OBJECT_PROTOTYPE_KEYS, k.data.get? 1 ≠ some c2) :
    (⟨c1 :: c2 :: rest⟩ : String) ∉ OBJECT_PROTOTYPE_KEYS := fun hs => h _ hs rfl

theorem proto_key_hash (rest : List Char) :
    (⟨'#' :: rest⟩ : String) ∉ OBJECT_PROTOTYPE_KEYS :=
  not_proto_key_of_head rest (by decide)

theorem proto_key_rgbl (rest : List Char) :
    (⟨'r' :: 'g' :: rest⟩ : String) ∉ OBJECT_PROTOTYPE_KEYS :=
  not_proto_key_of_second rest (by decide)

/-- On a string that is neither a table key nor an inherited prototype key,
the triple projection of the normalizer is just the hex/rgb rules. -/
theorem parseColorStr_not_special {s : String} (h1 : STANDARD_COLORS.lookup s = none)
    (h2 : s ∉ OBJECT_PROTOTYPE_KEYS) :
    parseColorStr s = parseColorNoName s := by
  rw [parseColorStr, parseColorStrJS, h1]
  rw [if_neg h2]
  cases hp : parseColorNoName s
  · simp [hp]
  · simp [hp]

theorem dropWhile_append_of_all {p : Char → Bool} {w t : List Char}
    (h : ∀ c ∈ w, p c = true) : (w ++ t).dropWhile p = t.dropWhile p := by
  induction w with
  | nil => rfl
  | cons c w ih =>
    rw [List.cons_append, List.dropWhile_cons, h c (List.mem_cons_self _ _)]
    exact ih fun x hx => h x (List.mem_cons_of_mem _ hx)

theorem dropWhile_cons_of_neg {p : Char → Bool} {c : Char} {t : List Char}
    (h : p c = false) : (c :: t).dropWhile p = c :: t := by
  rw [List.dropWhile_cons, h]
  simp

theorem takeWhile_append_of_all {p : Char → Bool} {ds t : List Char} {c : Char}
    (hds : ∀ x ∈ ds, p x = true) (hc : p c = false) :
    (ds ++ c :: t).takeWhile p = ds := by
  induction ds with
  | nil =>
    rw [List.nil_append, List.takeWhile_cons, hc]
    simp
  | cons d ds ih =>
    rw [List.cons_append, List.takeWhile_cons, hds d (List.mem_cons_self _ _)]
    simp only [if_true]
    rw [ih fun x hx => hds x (List.mem_cons_of_mem _ hx)]

/-! ### Facts about the base-conversion model of `Number.prototype.toString` -/

theorem natToDigitsGo_fuel {b : ℕ} : ∀ {n f1 f2 : ℕ}, n ≤ f1 → n ≤ f2 →
    natToDigitsGo b f1 n = natToDigitsGo b f2 n := by
  intro n
  induction n using Nat.strong_induction_on with
  | _ n ih =>
  intro f1 f2 h1 h2
  cases f1 with
  | zero =>
    cases f2 with
    | zero => rfl
    | succ f2 =>
      obtain rfl : n = 0 := Nat.le_zero.mp h1
      show [digitChar 0] = natToDigitsGo b (f2 + 1) 0
      rw [natToDigitsGo, if_neg (by omega)]
  | succ f1 =>
    cases f2 with
    | zero =>
      obtain rfl : n = 0 := Nat.le_zero.mp h2
      show natToDigitsGo b (f1 + 1) 0 = [digitChar 0]
      rw [natToDigitsGo, if_neg (by omega)]
    | succ f2 =>
      rw [natToDigitsGo, natToDigitsGo]
      by_cases hc : 2 ≤ b ∧ b ≤ n
      · rw [if_pos hc, if_pos hc]
        have hdiv : n / b < n := Nat.div_lt_self (by omega) (by omega)
        have ha : n / b ≤ f1 := by omega
        have hb : n / b ≤ f2 := by omega
        rw [ih (n / b) hdiv ha hb]
      · rw [if_neg hc, if_neg hc]

theorem natToDigits_base {b n : ℕ} (h : ¬(2 ≤ b ∧ b ≤ n)) :
    natToDigits b n = [digitChar n] := by
  cases n with
  | zero => rfl
  | succ m =>
    show natToDigitsGo b (m + 1) (m + 1) = _
    rw [natToDigitsGo, if_neg h]

theorem natToDigits_step {b n : ℕ} (h2 : 2 ≤ b) (hbn : b ≤ n) :
    natToDigits b n = natToDigits b (n / b) ++ [digitChar (n % b)] := by
  obtain ⟨m, rfl⟩ : ∃ m, n = m + 1 := ⟨n - 1, by omega⟩
  show natToDigitsGo b (m + 1) (m + 1) = _
  rw [natToDigitsGo, if_pos ⟨h2, hbn⟩]
  have hdiv : (m + 1) / b < m + 1 := Nat.div_lt_self (by omega) (by omega)
  rw [natToDigitsGo_fuel (show (m + 1) / b ≤ m by omega) (le_refl ((m + 1) / b))]
  rfl

theorem hexVal_digitChar {k : ℕ} (h : k < 16) : hexVal (digitChar k) = k := by
  interval_cases k <;> decide

theorem isDigit_digitChar {k : ℕ} (h : k < 10) : (digitChar k).isDigit = true := by
  interval_cases k <;> decide

theorem isHexDigit_digitChar {k : ℕ} (h : k < 16) : isHexDigit (digitChar k) = true := by
  interval_cases k <;> decide

theorem digitsVal_append_singleton (b : ℕ) (l : List Char) (c : Char) :
    digitsVal b (l ++ [c]) = b * digitsVal b l + hexVal c := by
  rw [digitsVal, List.foldl_append]
  rfl

theorem digitsVal_natToDigits {b : ℕ} (h2 : 2 ≤ b) (h16 : b ≤ 16) :
    ∀ n, digitsVal b (natToDigits b n) = n := by
  intro n
  induction n using Nat.strong_induction_on with
  | _ n ih =>
  by_cases hc : b ≤ n
  · rw [natToDigits_step h2 hc, digitsVal_append_singleton,
      ih (n / b) (Nat.div_lt_self (by omega) (by omega))]
    have hm : n % b < b := Nat.mod_lt n (by omega)
    rw [hexVal_digitChar (by omega)]
    exact Nat.div_add_mod n b
  · rw [natToDigits_base (by omega)]
    have : digitsVal b [digitChar n] = b * 0 + hexVal (digitChar n) := rfl
    rw [this, hexVal_digitChar (by omega), Nat.mul_zero, Nat.zero_add]

theorem natToDigits_ne_nil {b n : ℕ} : natToDigits b n ≠ [] := by
  by_cases hc : 2 ≤ b ∧ b ≤ n
  · rw [natToDigits_step hc.1 hc.2]
    simp
  · rw [natToDigits_base hc]
    simp

theorem natToDigits_all_digit : ∀ n, ∀ c ∈ natToDigits 10 n, c.isDigit = true := by
  intro n
  induction n using Nat.strong_induction_on with
  | _ n ih =>
  intro c hc
  by_cases h : 10 ≤ n
  · rw [natToDigits_step (by omega) h] at hc
    rcases List.mem_append.mp hc with h1 | h1
    · exact ih (n / 10) (by omega) c h1
    · rw [List.mem_singleton.mp h1]
      exact isDigit_digitChar (Nat.mod_lt n (by omega))
  · rw [natToDigits_base (by omega)] at hc
    rw [List.mem_singleton.mp hc]
    exact isDigit_digitChar (by omega)

theorem natToDigits_all_hexDigit : ∀ n, ∀ c ∈ natToDigits 16 n, isHexDigit c = true := by
  intro n
  induction n using Nat.strong_induction_on with
  | _ n ih =>
  intro c hc
  by_cases h : 16 ≤ n
  · rw [natToDigits_step (by omega) h] at hc
    rcases List.mem_append.mp hc with h1 | h1
    · exact ih (n / 16) (by omega) c h1
    · rw [List.mem_singleton.mp h1]
      exact isHexDigit_digitChar (Nat.mod_lt n (by omega))
  · rw [natToDigits_base (by omega)] at hc
    rw [List.mem_singleton.mp hc]
    exact isHexDigit_digitChar (by omega)

/-! ### Distance and sorting lemmas -/

theorem distance_le_of_distSq_le {a b : ColorMatch} (h : a.distSq ≤ b.distSq) :
    a.distance ≤ b.distance := by
  rw [ColorMatch.distance, ColorMatch.distance]
  exact Real.sqrt_le_sqrt (by exact_mod_cast h)

theorem distSq_nonneg_of_mem {q : RGB} {colors : List ColorSpec} {m : ColorMatch}
    (h : m ∈ buildMatches q colors) : 0 ≤ m.distSq := by
  obtain ⟨c, hc, rfl⟩ := List.mem_map.mp h
  show (0 : ℤ) ≤ (q.r - c.rgb.r) ^ 2 + (q.g - c.rgb.g) ^ 2 + (q.b - c.rgb.b) ^ 2
  positivity

theorem distSq_eq_of_distance_eq {a b : ColorMatch} (ha : 0 ≤ a.distSq) (hb : 0 ≤ b.distSq)
    (h : a.distance = b.distance) : a.distSq = b.distSq := by
  rw [ColorMatch.distance, ColorMatch.distance] at h
  have h2 := (Real.sqrt_inj (by exact_mod_cast ha) (by exact_mod_cast hb)).mp h
  exact_mod_cast h2

/-! ### The claims -/

/-- C1: for every palette and every query colour that normalizes successfully,
the match built for a palette entry carries distance equal to the Euclidean
distance `sqrt(dr² + dg² + db²)` between the query's RGB triple and the
entry's RGB triple (no clamping, no channel weighting), and an entry whose
triple equals the query's has distance exactly 0. -/
theorem C1_euclidean_distance (needle : ColorInput) (q : RGB)
    (hq : parseColorToRGB needle = some q) (colors : List ColorSpec)
    (c : ColorSpec) (hc : c ∈ colors) :
    toColorMatch q c ∈ buildMatches q colors ∧
    (toColorMatch q c).distance =
      Real.sqrt (((q.r : ℝ) - (c.rgb.r : ℝ)) ^ 2 + ((q.g : ℝ) - (c.rgb.g : ℝ)) ^ 2 +
        ((q.b : ℝ) - (c.rgb.b : ℝ)) ^ 2) ∧
    (q = c.rgb → (toColorMatch q c).distance = 0) := by
  refine ⟨List.mem_map_of_mem _ hc, ?_, ?_⟩
  · rw [ColorMatch.distance]
    congr 1
    show (((q.r - c.rgb.r) ^ 2 + (q.g - c.rgb.g) ^ 2 + (q.b - c.rgb.b) ^ 2 : ℤ) : ℝ) = _
    push_cast
    ring
  · intro he
    subst he
    rw [ColorMatch.distance]
    have hz : (toColorMatch c.rgb c).distSq = 0 := by
      show (c.rgb.r - c.rgb.r) ^ 2 + (c.rgb.g - c.rgb.g) ^ 2 + (c.rgb.b - c.rgb.b) ^ 2 = 0
      ring
    rw [hz]
    simp

/-- Witness for C1 at the palette that maps yellow to the hex string of pure
yellow, queried with that same hex string. -/
theorem C1_witness :
    (toColorMatch ⟨255, 255, 0⟩ ⟨some "yellow", "#ff0", ⟨255, 255, 0⟩⟩).distance = 0 :=
  (C1_euclidean_distance (.str "#ff0") ⟨255, 255, 0⟩ (by decide)
    [⟨some "yellow", "#ff0", ⟨255, 255, 0⟩⟩] ⟨some "yellow", "#ff0", ⟨255, 255, 0⟩⟩
    (List.mem_singleton.mpr rfl)).2.2 rfl

/-- C2: for every palette and every successfully normalized query, the sorted
match sequence is ascending by distance, contains exactly the matches built
from the palette entries, and two results with exactly equal distance keep the
relative order their entries had in the palette (stability is the only
tie-break). -/
theorem C2_sorted_stable (needle : ColorInput) (q : RGB)
    (hq : parseColorToRGB needle = some q) (colors : List ColorSpec) :
    (sortedMatches q colors).Pairwise (fun a b => a.distance ≤ b.distance) ∧
    List.Perm (sortedMatches q colors) (buildMatches q colors) ∧
    (∀ a b : ColorMatch, List.Sublist [a, b] (buildMatches q colors) → a.distance = b.distance →
      List.Sublist [a, b] (sortedMatches q colors)) := by
  refine ⟨?_, List.perm_insertionSort _ _, ?_⟩
  · have hs := List.sorted_insertionSort colorMatchLE (buildMatches q colors)
    exact hs.imp fun h => distance_le_of_distSq_le h
  · intro a b hsub hdist
    have ha : a ∈ buildMatches q colors := hsub.subset (by simp)
    have hb : b ∈ buildMatches q colors := hsub.subset (by simp)
    have hle : colorMatchLE a b :=
      le_of_eq (distSq_eq_of_distance_eq (distSq_nonneg_of_mem ha) (distSq_nonneg_of_mem hb) hdist)
    exact List.pair_sublist_insertionSort hle hsub

/-- Witness for C2 at a concrete two-entry palette. -/
theorem C2_witness :
    (sortedMatches ⟨255, 255, 0⟩
      [⟨some "black", "#000", ⟨0, 0, 0⟩⟩, ⟨some "yellow", "#ff0", ⟨255, 255, 0⟩⟩]).Pairwise
      (fun a b => a.distance ≤ b.distance) :=
  (C2_sorted_stable (.str "#ff0") ⟨255, 255, 0⟩ (by decide)
    [⟨some "black", "#000", ⟨0, 0, 0⟩⟩, ⟨some "yellow", "#ff0", ⟨255, 255, 0⟩⟩]).1

/-- C3: with a successfully normalized query, a requested count `≤ 1` returns
the single lowest-distance match (absent, not an error, on an empty palette),
and a count `> 1` returns the first `min(count, P)` entries of the sorted
sequence — a count exceeding the palette size yields all entries, sorted,
with no padding. -/
theorem C3_result_count (needle : ColorInput) (q : RGB)
    (hq : parseColorToRGB needle = some q) (colors : List ColorSpec) (amount : ℤ) :
    (amount ≤ 1 →
      nearestColor needle colors amount = .ok (.one (sortedMatches q colors).head?) ∧
      (colors = [] → (sortedMatches q colors).head? = none) ∧
      (colors ≠ [] → ∃ m, (sortedMatches q colors).head? = some m ∧
        ∀ m' ∈ sortedMatches q colors, m.distance ≤ m'.distance)) ∧
    (1 < amount →
      nearestColor needle colors amount =
        .ok (.many ((sortedMatches q colors).take amount.toNat)) ∧
      ((sortedMatches q colors).take amount.toNat).length = min amount.toNat colors.length ∧
      ((colors.length : ℤ) ≤ amount →
        (sortedMatches q colors).take amount.toNat = sortedMatches q colors)) := by
  have hlen : (sortedMatches q colors).length = colors.length := by
    rw [sortedMatches, List.length_insertionSort, buildMatches, List.length_map]
  constructor
  · intro ha
    refine ⟨?_, ?_, ?_⟩
    · simp only [nearestColor, hq]
      rw [if_pos ha]
    · intro he
      subst he
      rfl
    · intro hne
      have hne2 : sortedMatches q colors ≠ [] := by
        intro h0
        apply hne
        have h1 := congrArg List.length h0
        rw [hlen] at h1
        exact List.length_eq_zero.mp h1
      obtain ⟨m, rest, hm⟩ := List.exists_cons_of_ne_nil hne2
      refine ⟨m, by rw [hm]; rfl, ?_⟩
      intro m' hm'
      rw [hm] at hm'
      rcases List.mem_cons.mp hm' with rfl | hmem
      · exact le_refl _
      · have hs := List.sorted_insertionSort colorMatchLE (buildMatches q colors)
        rw [show (buildMatches q colors).insertionSort colorMatchLE = sortedMatches q colors
          from rfl, hm] at hs
        exact distance_le_of_distSq_le (List.rel_of_sorted_cons hs m' hmem)
  · intro ha
    refine ⟨?_, ?_, ?_⟩
    · simp only [nearestColor, hq]
      rw [if_neg (not_le.mpr ha)]
    · rw [List.length_take, hlen]
    · intro hle
      apply List.take_of_length_le
      rw [hlen]
      omega

/-- Witness for C3: a count larger than the palette returns the whole sorted
sequence. -/
theorem C3_witness :
    nearestColor (.str "#ff0") [⟨some "yellow", "#ff0", ⟨255, 255, 0⟩⟩] 5 =
      .ok (.many (sortedMatches ⟨255, 255, 0⟩ [⟨some "yellow", "#ff0", ⟨255, 255, 0⟩⟩])) := by
  have h := (C3_result_count (.str "#ff0") ⟨255, 255, 0⟩ (by decide)
    [⟨some "yellow", "#ff0", ⟨255, 255, 0⟩⟩] 5).2 (by decide)
  rw [h.1, h.2.2 (by decide)]

/-- C4: over the full runtime input domain, the search raises the fatal
invalid-colour error exactly when the normalizer returns the `null` failure
value; a query that fails to normalize never yields a result; and a
`TypeError` thrown inside the normalizer (for a source that is an inherited
`Object.prototype` key) propagates as that `TypeError`, not as the
invalid-colour error and not as a silent skip. -/
theorem C4_invalid_color_error (needle : JSColorInput) (colors : List ColorSpec) (amount : ℤ) :
    (nearestColorJS needle colors amount = .invalidColorError ↔
      parseColorToRGBJS needle = .nullResult) ∧
    (parseColorToRGBJS needle = .nullResult →
      ∀ r, nearestColorJS needle colors amount ≠ .ok r) ∧
    (parseColorToRGBJS needle = .typeError →
      nearestColorJS needle colors amount = .typeError) := by
  cases h : parseColorToRGBJS needle with
  | nullResult =>
    refine ⟨by simp [nearestColorJS, h], ?_, ?_⟩
    · intro _ r
      simp [nearestColorJS, h]
    · intro hc
      cases hc
  | typeError =>
    refine ⟨by simp [nearestColorJS, h], ?_, ?_⟩
    · intro hc
      cases hc
    · intro _
      simp [nearestColorJS, h]
  | obj q =>
    refine ⟨?_, ?_, ?_⟩
    · constructor
      · intro he
        simp only [nearestColorJS, h] at he
        by_cases ha : amount ≤ 1 <;> simp [ha] at he
      · intro hn
        cases hn
    · intro hc
      cases hc
    · intro hc
      cases hc

/-- Witness for C4 at the unparseable query string (invalid-colour error) and
at an inherited prototype key (`TypeError`, not the invalid-colour error). -/
theorem C4_witness :
    nearestColorJS (.str "foo") [] 1 = .invalidColorError ∧
    nearestColorJS (.str "toString") [] 1 = .typeError :=
  ⟨(C4_invalid_color_error (.str "foo") [] 1).1.mpr (by decide),
   (C4_invalid_color_error (.str "toString") [] 1).2.2 (by decide)⟩

/-- C8: a functional-rgb component without a trailing percent sign is its
literal integer value; one with a trailing percent sign of integer part `v`
scales to `round(v * 255 / 100)`; and `rgb(50%, 0%, 50%)` normalizes to the
triple (128, 0, 128). -/
theorem C8_component_scaling (ds : List Char) (hne : ds ≠ [])
    (hds : ∀ c ∈ ds, c.isDigit = true) :
    parseComponentValue ⟨ds⟩ = (digitsVal 10 ds : ℤ) ∧
    parseComponentValue ⟨ds ++ ['%']⟩ = jsRound ((digitsVal 10 ds : ℚ) * 255 / 100) ∧
    parseColorStr "rgb(50%, 0%, 50%)" = some ⟨128, 0, 128⟩ := by
  refine ⟨?_, ?_, by decide⟩
  · rw [parseComponentValue, if_neg ?_]
    intro hcontra
    have hc : '%' ∈ ds := List.mem_of_getLast?_eq_some hcontra
    have := hds '%' hc
    simp at this
  · rw [parseComponentValue, if_pos ?_]
    · show (((51 * digitsVal 10 ((ds ++ ['%']).takeWhile Char.isDigit) + 10) / 20 : ℕ) : ℤ) = _
      rw [takeWhile_append_of_all hds (by decide)]
      exact round_formula_eq_jsRound _
    · show (ds ++ ['%']).getLast? = some '%'
      rw [List.getLast?_concat]

/-- Witness for C8 at the component strings of the spec's example. -/
theorem C8_witness :
    parseComponentValue "50" = 50 ∧ parseColorStr "rgb(50%, 0%, 50%)" = some ⟨128, 0, 128⟩ := by
  have h := C8_component_scaling ['5', '0'] (by decide) (by decide)
  exact ⟨h.1, h.2.2⟩

/-- C10: normalization of any object input — including one lacking the
r/g/b fields — succeeds and returns the object unchanged without inspecting
it; the failure value can only arise from a string input; and the search
accepts such an object as the canonical triple, feeding it into the distance
computation as-is (matches are built directly from its fields, `NaN` distance
when a field is absent) rather than erroring. -/
theorem C10_object_passthrough :
    (∀ o : RGBObject, parseColorToRGBJS (.obj o) = .obj o) ∧
    (∀ i : JSColorInput, parseColorToRGBJS i = .nullResult → ∃ s, i = .str s) ∧
    (∀ (o : RGBObject) (colors : List ColorSpec) (amount : ℤ),
      nearestColorJS (.obj o) colors amount =
        (if amount ≤ 1 then .ok (.one (sortedMatchesJS o colors).head?)
         else .ok (.many ((sortedMatchesJS o colors).take amount.toNat)))) := by
  refine ⟨fun o => rfl, fun i h => ?_, fun o colors amount => rfl⟩
  cases i with
  | str s => exact ⟨s, rfl⟩
  | obj o =>
    rw [show parseColorToRGBJS (.obj o) = .obj o from rfl] at h
    cases h

/-- Witness for C10 at the keyless object: it is accepted unchanged, and a
search with it produces a result (with `NaN` distance) instead of failing. -/
theorem C10_witness :
    parseColorToRGBJS (.obj ⟨none, none, none⟩) = .obj ⟨none, none, none⟩ ∧
    (∃ s, JSColorInput.str "foo" = .str s) ∧
    nearestColorJS (.obj ⟨none, none, none⟩) [⟨some "yellow", "#ff0", ⟨255, 255, 0⟩⟩] 1 =
      .ok (.one (some ⟨"yellow", "#ff0", ⟨255, 255, 0⟩, none⟩)) :=
  ⟨C10_object_passthrough.1 ⟨none, none, none⟩,
   C10_object_passthrough.2.1 (.str "foo") (by decide),
   (C10_object_passthrough.2.2 ⟨none, none, none⟩
     [⟨some "yellow", "#ff0", ⟨255, 255, 0⟩⟩] 1).trans (by decide)⟩

/-! ### C7: hex round-trip -/

theorem natToDigits16_byte {n : ℕ} (h : n < 256) :
    leadingZero (natToDigits 16 n) = [digitChar (n / 16), digitChar (n % 16)] := by
  by_cases h16 : n < 16
  · rw [natToDigits_base (by omega), leadingZero]
    have h1 : n / 16 = 0 := by omega
    have h2 : n % 16 = n := by omega
    rw [h1, h2]
    simp only [List.length_singleton, if_pos rfl]
    rfl
  · rw [natToDigits_step (by omega) (by omega), natToDigits_base (by omega), leadingZero]
    simp

theorem hexPairVal_digitChar {n : ℕ} (h : n < 256) :
    hexPairVal (digitChar (n / 16)) (digitChar (n % 16)) = (n : ℤ) := by
  rw [hexPairVal, hexVal_digitChar (by omega), hexVal_digitChar (by omega)]
  push_cast
  omega

/-- C7: converting any RGB triple with channels in [0, 255] to its hex string
and normalizing that string yields the same triple. -/
theorem C7_hex_roundtrip (r g b : ℤ) (hr0 : 0 ≤ r) (hr1 : r ≤ 255)
    (hg0 : 0 ≤ g) (hg1 : g ≤ 255) (hb0 : 0 ≤ b) (hb1 : b ≤ 255) :
    parseColorToRGB (.str (rgbToHex ⟨r, g, b⟩)) = some ⟨r, g, b⟩ := by
  have hr' : r.toNat < 256 := by omega
  have hg' : g.toNat < 256 := by omega
  have hb' : b.toNat < 256 := by omega
  have hjs : ∀ x : ℤ, 0 ≤ x → jsToString16 x = natToDigits 16 x.toNat := by
    intro x hx
    rw [jsToString16, if_neg (by omega)]
  have hform : rgbToHex ⟨r, g, b⟩ =
      ⟨'#' :: ([digitChar (r.toNat / 16), digitChar (r.toNat % 16),
        digitChar (g.toNat / 16), digitChar (g.toNat % 16),
        digitChar (b.toNat / 16), digitChar (b.toNat % 16)])⟩ := by
    show (⟨'#' :: (leadingZero (jsToString16 r) ++
      leadingZero (jsToString16 g) ++ leadingZero (jsToString16 b))⟩ : String) = _
    rw [hjs r hr0, hjs g hg0, hjs b hb0,
      natToDigits16_byte hr', natToDigits16_byte hg', natToDigits16_byte hb']
    rfl
  have e1 : isHexDigit (digitChar (r.toNat / 16)) = true := isHexDigit_digitChar (by omega)
  have e2 : isHexDigit (digitChar (r.toNat % 16)) = true := isHexDigit_digitChar (by omega)
  have e3 : isHexDigit (digitChar (g.toNat / 16)) = true := isHexDigit_digitChar (by omega)
  have e4 : isHexDigit (digitChar (g.toNat % 16)) = true := isHexDigit_digitChar (by omega)
  have e5 : isHexDigit (digitChar (b.toNat / 16)) = true := isHexDigit_digitChar (by omega)
  have e6 : isHexDigit (digitChar (b.toNat % 16)) = true := isHexDigit_digitChar (by omega)
  have hhex : parseHex (rgbToHex ⟨r, g, b⟩) = some ⟨r, g, b⟩ := by
    rw [hform]
    simp only [parseHex]
    rw [if_pos trivial, if_pos (by simp [e1, e2, e3, e4, e5, e6])]
    rw [hexPairVal_digitChar hr', hexPairVal_digitChar hg', hexPairVal_digitChar hb',
      Int.toNat_of_nonneg hr0, Int.toNat_of_nonneg hg0, Int.toNat_of_nonneg hb0]
  show parseColorStr (rgbToHex ⟨r, g, b⟩) = some ⟨r, g, b⟩
  rw [parseColorStr_not_special (hform ▸ lookup_std_hash _) (hform ▸ proto_key_hash _)]
  rw [parseColorNoName, hhex]

/-- Witness for C7 at the concrete triple (247, 235, 52). -/
theorem C7_witness : parseColorToRGB (.str (rgbToHex ⟨247, 235, 52⟩)) = some ⟨247, 235, 52⟩ :=
  C7_hex_roundtrip 247 235 52 (by decide) (by decide) (by decide) (by decide) (by decide)
    (by decide)

/-! ### C6: whitespace handling of the functional-rgb regex -/

theorem ws_not_digit {c : Char} (h : isJsWhitespace c = true) : c.isDigit = false := by
  simp only [isJsWhitespace, Bool.or_eq_true, beq_iff_eq] at h
  rcases h with ((((((h | h) | h) | h) | h) | h) | h) <;> subst h <;> decide

theorem digit_not_ws {c : Char} (h : c.isDigit = true) : isJsWhitespace c = false := by
  cases hw : isJsWhitespace c
  · rfl
  · rw [ws_not_digit hw] at h
    cases h

theorem ws_ne {c c' : Char} (h : isJsWhitespace c = true) (h' : isJsWhitespace c' = false) :
    c ≠ c' := by
  intro e
  subst e
  rw [h] at h'
  cases h'

theorem compChars_cons (d : Char) (tl : List Char) (p : Bool) (X : List Char) :
    compChars (d :: tl) p ++ X = d :: (compChars tl p ++ X) := by
  cases p <;> simp [compChars]

theorem dropWhile_ws_comp {w ds : List Char}
    (hw : ∀ x ∈ w, isJsWhitespace x = true) (hne : ds ≠ [])
    (hds : ∀ x ∈ ds, x.isDigit = true) : ∀ (p : Bool) (X : List Char),
    (w ++ (compChars ds p ++ X)).dropWhile isJsWhitespace = compChars ds p ++ X := by
  intro p X
  rw [dropWhile_append_of_all hw]
  obtain ⟨d, tl, rfl⟩ := List.exists_cons_of_ne_nil hne
  rw [compChars_cons,
    dropWhile_cons_of_neg (digit_not_ws (hds d (List.mem_cons_self _ _))), ← compChars_cons]

theorem parseComp_exact {ds : List Char} (c : Char) (hne : ds ≠ []) (hlen : ds.length ≤ 3)
    (hds : ∀ x ∈ ds, x.isDigit = true) (hc : c.isDigit = false) (hcp : c ≠ '%') (pct : Bool) :
    ∀ t : List Char, parseComp (compChars ds pct ++ c :: t) = some (compChars ds pct, c :: t) := by
  intro t
  have hpos : 1 ≤ ds.length := List.length_pos.mpr hne
  cases pct with
  | false =>
    show parseComp (ds ++ c :: t) = some (ds, c :: t)
    simp only [parseComp]
    rw [takeWhile_append_of_all hds hc, List.drop_left, if_pos ⟨hpos, hlen⟩]
    simp [hcp]
  | true =>
    show parseComp ((ds ++ ['%']) ++ c :: t) = some (ds ++ ['%'], c :: t)
    rw [List.append_assoc, List.singleton_append]
    simp only [parseComp]
    rw [takeWhile_append_of_all hds (by decide),
      show (ds ++ '%' :: c :: t).drop ds.length = '%' :: c :: t from List.drop_left ds _,
      if_pos ⟨hpos, hlen⟩]
    simp

theorem parseRgbBody_spec (ds1 ds2 ds3 : List Char) (p1 p2 p3 : Bool)
    (w0 w1 w2 w3 : List Char)
    (h1 : ds1 ≠ []) (h1l : ds1.length ≤ 3) (h1d : ∀ x ∈ ds1, x.isDigit = true)
    (h2 : ds2 ≠ []) (h2l : ds2.length ≤ 3) (h2d : ∀ x ∈ ds2, x.isDigit = true)
    (h3 : ds3 ≠ []) (h3l : ds3.length ≤ 3) (h3d : ∀ x ∈ ds3, x.isDigit = true)
    (hw0 : ∀ x ∈ w0, isJsWhitespace x = true) (hw1 : ∀ x ∈ w1, isJsWhitespace x = true)
    (hw2 : ∀ x ∈ w2, isJsWhitespace x = true) (hw3 : ∀ x ∈ w3, isJsWhitespace x = true) :
    parseRgbBody (w0 ++ (compChars ds1 p1 ++ ',' :: (w1 ++ (compChars ds2 p2 ++ ',' ::
      (w2 ++ (compChars ds3 p3 ++ (w3 ++ [')']))))))) =
      some (compChars ds1 p1, compChars ds2 p2, compChars ds3 p3) := by
  cases w3 with
  | nil =>
    simp only [parseRgbBody, List.nil_append,
      dropWhile_ws_comp hw0 h1 h1d, parseComp_exact ',' h1 h1l h1d (by decide) (by decide) p1,
      dropWhile_ws_comp hw1 h2 h2d, parseComp_exact ',' h2 h2l h2d (by decide) (by decide) p2,
      dropWhile_ws_comp hw2 h3 h3d, parseComp_exact ')' h3 h3l h3d (by decide) (by decide) p3,
      expectChar, if_true,
      dropWhile_cons_of_neg (show isJsWhitespace ')' = false by decide)]
  | cons wc w3' =>
    have hwc : isJsWhitespace wc = true := hw3 wc (List.mem_cons_self _ _)
    have hw3' : ∀ x ∈ w3', isJsWhitespace x = true :=
      fun x hx => hw3 x (List.mem_cons_of_mem _ hx)
    simp only [parseRgbBody, List.cons_append,
      dropWhile_ws_comp hw0 h1 h1d, parseComp_exact ',' h1 h1l h1d (by decide) (by decide) p1,
      dropWhile_ws_comp hw1 h2 h2d, parseComp_exact ',' h2 h2l h2d (by decide) (by decide) p2,
      dropWhile_ws_comp hw2 h3 h3d,
      parseComp_exact wc h3 h3l h3d (ws_not_digit hwc) (ws_ne hwc (by decide)) p3,
      expectChar, if_true, List.dropWhile_cons, hwc, dropWhile_append_of_all hw3',
      dropWhile_cons_of_neg (show isJsWhitespace ')' = false by decide)]

/-- C6 (as written) is refuted by a functional-rgb string with whitespace
between the first component and its comma: the regex
`^rgb\(\s*(\d{1,3}%?),\s*...` allows whitespace before each component but none
between a component and the following comma, so this string fails to
normalize. -/
theorem C6_counterexample : parseColorStr "rgb(1 , 2, 3)" = none := by decide

/-- C6 (amended): an `rgb(...)` string of three comma-separated components,
each 1–3 digits optionally followed by `%`, is accepted with arbitrary
optional whitespace before each component and after the last component, but
not between a component and its following comma. -/
theorem C6_amended_whitespace (ds1 ds2 ds3 : List Char) (p1 p2 p3 : Bool)
    (w0 w1 w2 w3 : List Char)
    (h1 : ds1 ≠ []) (h1l : ds1.length ≤ 3) (h1d : ∀ x ∈ ds1, x.isDigit = true)
    (h2 : ds2 ≠ []) (h2l : ds2.length ≤ 3) (h2d : ∀ x ∈ ds2, x.isDigit = true)
    (h3 : ds3 ≠ []) (h3l : ds3.length ≤ 3) (h3d : ∀ x ∈ ds3, x.isDigit = true)
    (hw0 : ∀ x ∈ w0, isJsWhitespace x = true) (hw1 : ∀ x ∈ w1, isJsWhitespace x = true)
    (hw2 : ∀ x ∈ w2, isJsWhitespace x = true) (hw3 : ∀ x ∈ w3, isJsWhitespace x = true) :
    parseColorStr ⟨'r' :: 'g' :: 'b' :: '(' :: (w0 ++ (compChars ds1 p1 ++ ',' ::
      (w1 ++ (compChars ds2 p2 ++ ',' :: (w2 ++ (compChars ds3 p3 ++ (w3 ++ [')']))))))) ⟩ =
      some ⟨parseComponentValue ⟨compChars ds1 p1⟩, parseComponentValue ⟨compChars ds2 p2⟩,
        parseComponentValue ⟨compChars ds3 p3⟩⟩ := by
  rw [parseColorStr_not_special (lookup_std_rgbl _) (proto_key_rgbl _)]
  have hno : parseHex ⟨'r' :: 'g' :: 'b' :: '(' :: (w0 ++ (compChars ds1 p1 ++ ',' ::
      (w1 ++ (compChars ds2 p2 ++ ',' :: (w2 ++ (compChars ds3 p3 ++ (w3 ++ [')']))))))) ⟩ =
      none := by
    simp [parseHex]
  simp only [parseColorNoName, hno, parseRgbFunc]
  rw [if_pos (by simp)]
  rw [parseRgbBody_spec ds1 ds2 ds3 p1 p2 p3 w0 w1 w2 w3 h1 h1l h1d h2 h2l h2d h3 h3l h3d
    hw0 hw1 hw2 hw3]

/-- Witness for the amended C6 at the spec's example string
`rgb(50%, 0%, 50%)`. -/
theorem C6_witness : parseColorStr "rgb(50%, 0%, 50%)" = some ⟨128, 0, 128⟩ := by
  have h := C6_amended_whitespace ['5', '0'] ['0'] ['5', '0'] true true true [] [' '] [' '] []
    (by decide) (by decide) (by decide) (by decide) (by decide) (by decide)
    (by decide) (by decide) (by decide) (by decide) (by decide) (by decide) (by decide)
  exact h.trans (by decide)

/-! ### C5: palette construction -/

theorem length_filterMap_eq_countP {α β : Type} (f : α → Option β) (l : List α) :
    (l.filterMap f).length = l.countP (fun a => (f a).isSome) := by
  induction l with
  | nil => rfl
  | cons a l ih =>
    rw [List.filterMap_cons, List.countP_cons]
    cases h : f a <;> simp [h, ih]

theorem mapColors_mapping_eq (ps : List (String × String)) (nameKey hexKey : String) :
    mapColors (.mapping ps) nameKey hexKey =
      ps.filterMap (fun p => createColorSpec (.str p.2) (some p.1)) := by
  suffices h : ∀ acc : List ColorSpec, ps.foldl (fun result p =>
      match createColorSpec (.str p.2) (some p.1) with
      | some c => result ++ [c]
      | none => result) acc =
      acc ++ ps.filterMap (fun p => createColorSpec (.str p.2) (some p.1)) by
    simpa using h []
  induction ps with
  | nil => intro acc; simp
  | cons p ps ih =>
    intro acc
    rw [List.foldl_cons, List.filterMap_cons]
    cases h : createColorSpec (.str p.2) (some p.1) <;> simp only [h] <;> rw [ih] <;> simp

theorem mapColors_records_eq (records : List CustomColorObject) (nameKey hexKey : String) :
    mapColors (.records records) nameKey hexKey =
      records.filterMap (fun r => createColorSpec (.str (r hexKey)) (some (r nameKey))) := by
  suffices h : ∀ acc : List ColorSpec, records.foldl (fun result color =>
      match createColorSpec (.str (color hexKey)) (some (color nameKey)) with
      | some c => result ++ [c]
      | none => result) acc =
      acc ++ records.filterMap (fun r => createColorSpec (.str (r hexKey)) (some (r nameKey))) by
    simpa using h []
  induction records with
  | nil => intro acc; simp
  | cons r records ih =>
    intro acc
    rw [List.foldl_cons, List.filterMap_cons]
    cases h : createColorSpec (.str (r hexKey)) (some (r nameKey)) <;> simp only [h] <;>
      rw [ih] <;> simp

theorem createColorSpec_str_some {s : String} {nm : Option String} {c : ColorSpec}
    (h : createColorSpec (.str s) nm = some c) :
    c.source = s ∧ parseColorStr s = some c.rgb := by
  cases hp : parseColorStr s with
  | none =>
    rw [show createColorSpec (.str s) nm = none by
      simp [createColorSpec, parseColorToRGB, hp]] at h
    cases h
  | some rgb =>
    simp only [createColorSpec, parseColorToRGB, hp] at h
    cases h
    exact ⟨rfl, rfl⟩

theorem createColorSpec_str_isSome (s : String) (nm : Option String) :
    (createColorSpec (.str s) nm).isSome = (parseColorStr s).isSome := by
  cases hp : parseColorStr s <;> simp [createColorSpec, parseColorToRGB, hp]

/-- The typed-layer palette invariant, true on the triple projection of the
normalizer: every produced specification's `rgb` is a triple the normalizer
returned for its `source`, and the palette length counts the triple-producing
entries.  This is the sound part of the ingestion policy; the claim's full
"silently excluded, no error, no degraded entry" statement is refuted by the
prototype-chain behaviour, see `C5_proto_chain_bug`. -/
theorem mapColors_wellformed_on_triples (ps : List (String × String))
    (records : List CustomColorObject)
    (nameKey hexKey : String) :
    (∀ c ∈ mapColors (.mapping ps) nameKey hexKey, parseColorStr c.source = some c.rgb) ∧
    (∀ c ∈ mapColors (.records records) nameKey hexKey, parseColorStr c.source = some c.rgb) ∧
    (mapColors (.mapping ps) nameKey hexKey).length =
      ps.countP (fun p => (parseColorStr p.2).isSome) ∧
    (mapColors (.records records) nameKey hexKey).length =
      records.countP (fun r => (parseColorStr (r hexKey)).isSome) := by
  refine ⟨?_, ?_, ?_, ?_⟩
  · intro c hc
    rw [mapColors_mapping_eq] at hc
    obtain ⟨p, hp, hcs⟩ := List.mem_filterMap.mp hc
    obtain ⟨hsrc, hrgb⟩ := createColorSpec_str_some hcs
    rw [hsrc]
    exact hrgb
  · intro c hc
    rw [mapColors_records_eq] at hc
    obtain ⟨r, hr, hcs⟩ := List.mem_filterMap.mp hc
    obtain ⟨hsrc, hrgb⟩ := createColorSpec_str_some hcs
    rw [hsrc]
    exact hrgb
  · rw [mapColors_mapping_eq, length_filterMap_eq_countP]
    refine List.countP_congr fun p _ => ?_
    rw [createColorSpec_str_isSome]
  · rw [mapColors_records_eq, length_filterMap_eq_countP]
    refine List.countP_congr fun r _ => ?_
    rw [createColorSpec_str_isSome]

/-- C5: the claim — entries whose source fails to normalize are silently
excluded, without an error and without a degraded entry — is violated by the
program.  Evaluating the runtime palette builder: a mapping whose colour
value is `"toString"` (an inherited `Object.prototype` key) aborts the whole
build with a `TypeError` instead of skipping the entry, and a mapping whose
colour value is `"__proto__"` produces a palette entry whose `rgb` is
`Object.prototype`, an object with no r/g/b fields — exactly the degraded
entry the invariant forbids.  The spec's own normalizer rule ("exact,
case-sensitive match against a fixed built-in table") and its ingestion
policy make clear this prototype-chain leak of the `in` operator is a defect
in the code, not the intent. -/
theorem C5_proto_chain_bug :
    mapColorsObjJS [("a", "toString")] [] = .error () ∧
    mapColorsObjJS [("proto", "__proto__")] [] =
      .ok [⟨some "proto", "__proto__", objectPrototype⟩] ∧
    objectPrototype.r = none ∧ objectPrototype.g = none ∧ objectPrototype.b = none :=
  ⟨rfl, rfl, rfl, rfl, rfl⟩

/-! ### C9: the lossy rgba-to-hex conversion -/

theorem digit_ne {c : Char} (hd : c.isDigit = true) (c' : Char) (h' : c'.isDigit = false) :
    c ≠ c' := by
  intro e
  subst e
  rw [hd] at h'
  cases h'

theorem takeWhile_all {p : Char → Bool} : ∀ {l : List Char}, (∀ x ∈ l, p x = true) →
    l.takeWhile p = l := by
  intro l
  induction l with
  | nil => intro _; rfl
  | cons a t ih =>
    intro h
    rw [List.takeWhile_cons, h a (List.mem_cons_self _ _)]
    simp only [if_true]
    rw [ih fun x hx => h x (List.mem_cons_of_mem _ hx)]

theorem dropWhile_ws_of_digits {l : List Char} (h : ∀ x ∈ l, x.isDigit = true) :
    l.dropWhile isJsWhitespace = l := by
  cases l with
  | nil => rfl
  | cons a t => exact dropWhile_cons_of_neg (digit_not_ws (h a (List.mem_cons_self _ _)))

theorem jsTrim_ws_digits_ws {w ds w' : List Char}
    (hw : ∀ x ∈ w, isJsWhitespace x = true) (hw' : ∀ x ∈ w', isJsWhitespace x = true)
    (hne : ds ≠ []) (hds : ∀ x ∈ ds, x.isDigit = true) :
    jsTrim (w ++ ds ++ w') = ds := by
  rw [jsTrim, List.append_assoc, dropWhile_append_of_all hw]
  obtain ⟨d, tl, rfl⟩ := List.exists_cons_of_ne_nil hne
  rw [List.cons_append, dropWhile_cons_of_neg (digit_not_ws (hds d (List.mem_cons_self _ _)))]
  rw [show (d :: (tl ++ w')).reverse = w'.reverse ++ (tl.reverse ++ [d]) by simp]
  rw [dropWhile_append_of_all fun x hx => hw' x (List.mem_reverse.mp hx)]
  rw [dropWhile_ws_of_digits fun x hx => ?_]
  · simp
  · rcases List.mem_append.mp hx with hx | hx
    · exact hds x (List.mem_cons_of_mem _ (List.mem_reverse.mp hx))
    · rw [List.mem_singleton.mp hx]
      exact hds d (List.mem_cons_self _ _)

theorem jsParseInt10_digits {ds : List Char} (hne : ds ≠ [])
    (hds : ∀ x ∈ ds, x.isDigit = true) :
    jsParseInt10 ds = some ((digitsVal 10 ds : ℕ) : ℤ) := by
  obtain ⟨d, tl, rfl⟩ := List.exists_cons_of_ne_nil hne
  have hd : d.isDigit = true := hds d (List.mem_cons_self _ _)
  simp only [jsParseInt10, dropWhile_cons_of_neg (digit_not_ws hd)]
  rw [if_neg (digit_ne hd '-' (by decide)), if_neg (digit_ne hd '+' (by decide))]
  simp only [digitPrefixVal, takeWhile_all hds]
  simp

theorem splitComma_ne_nil : ∀ cs : List Char, splitComma cs ≠ [] := by
  intro cs
  induction cs with
  | nil => simp [splitComma]
  | cons c rest ih =>
    rw [splitComma]
    by_cases h : c = ','
    · rw [if_pos h]
      simp
    · rw [if_neg h]
      cases hs : splitComma rest
      · exact absurd hs ih
      · simp

theorem splitComma_append_comma {xs : List Char} (h : ∀ x ∈ xs, x ≠ ',') (rest : List Char) :
    splitComma (xs ++ ',' :: rest) = xs :: splitComma rest := by
  induction xs with
  | nil => rw [List.nil_append, splitComma, if_pos rfl]
  | cons c xs ih =>
    rw [List.cons_append, splitComma, if_neg (h c (List.mem_cons_self _ _)),
      ih fun x hx => h x (List.mem_cons_of_mem _ hx)]

theorem no_comma_of_ws_digits {w ds w' : List Char}
    (hw : ∀ x ∈ w, isJsWhitespace x = true) (hds : ∀ x ∈ ds, x.isDigit = true)
    (hw' : ∀ x ∈ w', isJsWhitespace x = true) : ∀ x ∈ w ++ ds ++ w', x ≠ ',' := by
  intro x hx
  rcases List.mem_append.mp hx with hx | hx
  · rcases List.mem_append.mp hx with hx | hx
    · exact ws_ne (hw x hx) (by decide)
    · exact digit_ne (hds x hx) ',' (by decide)
  · exact ws_ne (hw' x hx) (by decide)

theorem numToString16_natCast (n : ℕ) : numToString16 (some (n : ℤ)) = natToDigits 16 n := by
  rw [numToString16, jsToString16, if_neg (by omega), Int.toNat_natCast]

/-- C9: for a well-formed `rgba(R, G, B, A)` string with natural-number
components `R`, `G`, `B` (arbitrary whitespace around them) and an arbitrary
alpha field, the lossy conversion returns `"#"` followed by the base-16 string
conversions of `R`, `G` and `B` in order, discarding alpha — so components
with two hex digits contribute both digits. -/
theorem C9_rgba_lossy_hex (R G B : ℕ) (w1 w2 w3 w4 w5 w6 A : List Char)
    (hw1 : ∀ x ∈ w1, isJsWhitespace x = true) (hw2 : ∀ x ∈ w2, isJsWhitespace x = true)
    (hw3 : ∀ x ∈ w3, isJsWhitespace x = true) (hw4 : ∀ x ∈ w4, isJsWhitespace x = true)
    (hw5 : ∀ x ∈ w5, isJsWhitespace x = true) (hw6 : ∀ x ∈ w6, isJsWhitespace x = true) :
    rgbaToHex ⟨'r' :: 'g' :: 'b' :: 'a' :: '(' :: (w1 ++ natToDigits 10 R ++ w2 ++ ',' ::
      (w3 ++ natToDigits 10 G ++ w4 ++ ',' :: (w5 ++ natToDigits 10 B ++ w6 ++ ',' ::
      (A ++ [')'])))) ⟩ =
      some ⟨'#' :: (natToDigits 16 R ++ natToDigits 16 G ++ natToDigits 16 B)⟩ := by
  have hRd := natToDigits_all_digit R
  have hGd := natToDigits_all_digit G
  have hBd := natToDigits_all_digit B
  have hdrop : ∀ T : List Char,
      dropBeforeLParen ('r' :: 'g' :: 'b' :: 'a' :: '(' :: T) = '(' :: T := by
    intro T
    rw [dropBeforeLParen, if_pos (by simp)]
    simp
  have hparts : splitComma ('(' :: (w1 ++ natToDigits 10 R ++ w2 ++ ',' ::
      (w3 ++ natToDigits 10 G ++ w4 ++ ',' :: (w5 ++ natToDigits 10 B ++ w6 ++ ',' ::
      (A ++ [')']))))) =
      ('(' :: (w1 ++ natToDigits 10 R ++ w2)) :: (w3 ++ natToDigits 10 G ++ w4) ::
        (w5 ++ natToDigits 10 B ++ w6) :: splitComma (A ++ [')']) := by
    rw [← List.cons_append]
    rw [splitComma_append_comma ?hp0, splitComma_append_comma (no_comma_of_ws_digits hw3 hGd hw4),
      splitComma_append_comma (no_comma_of_ws_digits hw5 hBd hw6)]
    case hp0 =>
      intro x hx
      rcases List.mem_cons.mp hx with rfl | hx
      · decide
      · exact no_comma_of_ws_digits hw1 hRd hw2 x hx
  cases hA : splitComma (A ++ [')']) with
  | nil => exact absurd hA (splitComma_ne_nil _)
  | cons p3 ps =>
    simp only [rgbaToHex]
    rw [hdrop, hparts, hA]
    simp only [List.get?, Option.bind_eq_bind, Option.some_bind, List.drop_succ_cons,
      List.drop_zero]
    rw [jsTrim_ws_digits_ws hw1 hw2 natToDigits_ne_nil hRd,
      jsTrim_ws_digits_ws hw3 hw4 natToDigits_ne_nil hGd,
      jsTrim_ws_digits_ws hw5 hw6 natToDigits_ne_nil hBd,
      jsParseInt10_digits natToDigits_ne_nil hRd,
      jsParseInt10_digits natToDigits_ne_nil hGd,
      jsParseInt10_digits natToDigits_ne_nil hBd,
      digitsVal_natToDigits (by norm_num) (by norm_num) R,
      digitsVal_natToDigits (by norm_num) (by norm_num) G,
      digitsVal_natToDigits (by norm_num) (by norm_num) B,
      numToString16_natCast, numToString16_natCast, numToString16_natCast]

/-- Witness for C9 at the test string `rgba(1,1,1,1)`, which converts to
`"#111"`. -/
theorem C9_witness : rgbaToHex "rgba(1,1,1,1)" = some "#111" := by
  have h := C9_rgba_lossy_hex 1 1 1 [] [] [] [] [] [] ['1']
    (by decide) (by decide) (by decide) (by decide) (by decide) (by decide)
  exact h.trans (by decide)

end NearestColorTS
